import Mathlib

/-!
# Verification of the supercsv annotation-driven CSV mapping engine

This file is a shallow embedding, in Lean 4, of the core of the
`supercsv` Go package (file `csv_iterator.go`): the schema analyzer
(`buildFieldInfo`), the header index construction, the value coercer
(`setFieldValue`, including the multi-format date-time trial), and the
row materializer (`Next`, `ForEach`, `ToSlice`, `Close`).

Modelling conventions:
* Go strings are Lean `String`s; rows are `List String` (the
  `encoding/csv` tokenizer is an external collaborator and is modelled
  as a stream of already-tokenized rows, the first being the header).
* Machine integers are modelled as `Int`/`Nat` with the explicit range
  checks `strconv` performs; floating-point payloads are modelled as
  exact rationals (no verified property observes a float value).
* Reflection values are modelled by the inductive `Value`; a struct
  record is the list of its field values in declaration order.
* Error values produced with `fmt.Errorf` are modelled by inductive
  error types whose constructors carry exactly the data interpolated
  into the corresponding message.
-/

namespace SuperCSV

/-! ## Go `strings` and `unicode` helpers -/

/-- The characters Go `unicode.IsSpace` accepts: ASCII white space
together with the Unicode space code points (used by
`strings.TrimSpace`). -/
def isGoSpace (c : Char) : Bool :=
  c == ' ' || c == '\t' || c == '\n' || c.val == 11 || c.val == 12 || c == '\r' ||
  c.val == 0x85 || c.val == 0xA0 || c.val == 0x1680 ||
  (0x2000 ≤ c.val && c.val ≤ 0x200A) ||
  c.val == 0x2028 || c.val == 0x2029 || c.val == 0x202F || c.val == 0x205F || c.val == 0x3000

/-- Go `strings.TrimSpace`: drop leading and trailing white space. -/
def goTrimSpace (s : String) : String :=
  ⟨((s.data.dropWhile isGoSpace).reverse.dropWhile isGoSpace).reverse⟩

/-! ## Go `strconv` parsers -/

def isDigitChar (c : Char) : Bool := '0' ≤ c && c ≤ '9'

def digitVal (c : Char) : Nat := c.toNat - '0'.toNat

def digitsToNat (ds : List Char) : Nat :=
  ds.foldl (fun a c => a * 10 + digitVal c) 0

/-- Go `strconv.ParseBool`: the twelve canonical spellings. -/
def goParseBool (s : String) : Option Bool :=
  if s = "1" || s = "t" || s = "T" || s = "TRUE" || s = "true" || s = "True" then some true
  else if s = "0" || s = "f" || s = "F" || s = "FALSE" || s = "false" || s = "False" then some false
  else none

/-- Go `strconv.ParseInt(s, 10, 64)`: optional sign, base-10 digits,
64-bit signed range; empty or malformed input is rejected. -/
def goParseInt64 (s : String) : Option Int :=
  match s.data with
  | [] => none
  | c :: cs =>
    let signed : Bool × List Char :=
      if c == '-' then (true, cs) else if c == '+' then (false, cs) else (false, c :: cs)
    let ds := signed.2
    if ds.isEmpty || !ds.all isDigitChar then none
    else
      let n := digitsToNat ds
      if signed.1 then
        if n ≤ 2 ^ 63 then some (-(n : Int)) else none
      else
        if n < 2 ^ 63 then some (n : Int) else none

/-- Go `strconv.ParseUint(s, 10, 64)`: base-10 digits only (no sign),
64-bit unsigned range. -/
def goParseUint64 (s : String) : Option Nat :=
  match s.data with
  | [] => none
  | ds =>
    if !ds.all isDigitChar then none
    else
      let n := digitsToNat ds
      if n < 2 ^ 64 then some n else none

/-- A Go `float64` value as observed through this model: an exact
rational for finite values, plus infinities and NaN.  IEEE-754
rounding is abstracted away (no verified property observes a float
payload). -/
inductive GoFloat
  | finite (q : ℚ)
  | inf (neg : Bool)
  | nan
deriving DecidableEq

/-- Split a digit run into (digits before dot, digits after dot),
failing on malformed bodies.  Helper for `goParseFloat`. -/
def splitFloatBody (cs : List Char) : Option (List Char × List Char) :=
  let intPart := cs.takeWhile isDigitChar
  let rest := cs.drop intPart.length
  match rest with
  | [] => if intPart.isEmpty then none else some (intPart, [])
  | '.' :: cs2 =>
    let fracPart := cs2.takeWhile isDigitChar
    if cs2.length ≠ fracPart.length then none
    else if intPart.isEmpty && fracPart.isEmpty then none
    else some (intPart, fracPart)
  | _ => none

/-- Go `strconv.ParseFloat(s, 64)` restricted to the finite decimal
and `inf`/`nan` spellings (hexadecimal floats and underscore grouping
are not modelled; no verified property exercises them).  The mantissa
and exponent are kept exact as a rational. -/
def goParseFloat (s : String) : Option GoFloat :=
  match s.data with
  | [] => none
  | c :: cs =>
    let signed : Bool × List Char :=
      if c == '-' then (true, cs) else if c == '+' then (false, cs) else (false, c :: cs)
    let neg := signed.1
    let body := signed.2
    let lower := String.mk (body.map Char.toLower)
    if lower = "inf" || lower = "infinity" then some (.inf neg)
    else if lower = "nan" then some .nan
    else
      let mantExp : List Char × Option (List Char) :=
        match body.span (fun c2 => !(c2 == 'e' || c2 == 'E')) with
        | (m, []) => (m, none)
        | (m, _ :: e) => (m, some e)
      match splitFloatBody mantExp.1 with
      | none => none
      | some (ip, fp) =>
        let mant : ℚ := ((digitsToNat ip : ℚ) * 10 ^ fp.length + (digitsToNat fp : ℚ)) / 10 ^ fp.length
        let signedMant := if neg then -mant else mant
        match mantExp.2 with
        | none => some (.finite signedMant)
        | some ecs =>
          match ecs with
          | [] => none
          | e1 :: ecs2 =>
            let esigned : Bool × List Char :=
              if e1 == '-' then (true, ecs2)
              else if e1 == '+' then (false, ecs2)
              else (false, e1 :: ecs2)
            if esigned.2.isEmpty || !esigned.2.all isDigitChar then none
            else
              let ev : ℤ := if esigned.1 then -(digitsToNat esigned.2 : ℤ) else (digitsToNat esigned.2 : ℤ)
              some (.finite (signedMant * (10 : ℚ) ^ ev))

/-! ## Go `time.Parse` for the nine layouts used by the coercer

The package tries the layouts
`RFC3339`, `RFC3339Nano`, `"2006-01-02 15:04:05"`, `"2006-01-02"`,
`"15:04:05"`, `"01/02/2006"`, `"01/02/2006 15:04:05"`,
`"02/01/2006"`, `"02/01/2006 15:04:05"`
in that order.  The model below follows Go's layout-driven parser
(`time/format.go`) restricted to the standard chunks those nine
layouts contain.  `time.Parse` with a zone-carrying layout and
`time.ParseInLocation(_, _, time.UTC)` with a zone-free layout both
yield UTC when no zone appears in the input, so a single parser with a
defaulted offset models both calls. -/

/-- The result of a successful Go time parse, as the broken-down wall
clock together with the zone offset (seconds east of UTC). -/
structure GoTime where
  year : Nat
  month : Nat
  day : Nat
  hour : Nat
  minute : Nat
  sec : Nat
  nsec : Nat
  offset : Int
deriving DecidableEq

/-- Go `time.getnum`: one- or two-digit number; exactly two digits
when `fixed` is set. -/
def getnum (fixed : Bool) : List Char → Option (Nat × List Char)
  | c1 :: c2 :: rest =>
    if isDigitChar c1 then
      if isDigitChar c2 then some (digitVal c1 * 10 + digitVal c2, rest)
      else if fixed then none else some (digitVal c1, c2 :: rest)
    else none
  | [c1] => if isDigitChar c1 && !fixed then some (digitVal c1, []) else none
  | [] => none

/-- Go `stdLongYear`: exactly four digits. -/
def getnum4 : List Char → Option (Nat × List Char)
  | c1 :: c2 :: c3 :: c4 :: rest =>
    if isDigitChar c1 && isDigitChar c2 && isDigitChar c3 && isDigitChar c4 then
      some (((digitVal c1 * 10 + digitVal c2) * 10 + digitVal c3) * 10 + digitVal c4, rest)
    else none
  | _ => none

def commaOrPeriod (c : Char) : Bool := c == '.' || c == ','

/-- Go `parseNanoseconds` on a run of fraction digits: the first nine
digits scaled to nanoseconds. -/
def nanosOf (ds : List Char) : Nat :=
  let ds9 := ds.take 9
  digitsToNat ds9 * 10 ^ (9 - ds9.length)

/-- Go `stdISO8601ColonTZ` (layout text `Z07:00`): either a literal
`Z` (UTC) or a signed `hh:mm` offset. -/
def parseISOColonTZ : List Char → Option (Int × List Char)
  | 'Z' :: rest => some (0, rest)
  | s :: h1 :: h2 :: ':' :: m1 :: m2 :: rest =>
    if (s == '+' || s == '-') && isDigitChar h1 && isDigitChar h2 &&
        isDigitChar m1 && isDigitChar m2 then
      let hr := digitVal h1 * 10 + digitVal h2
      let mm := digitVal m1 * 10 + digitVal m2
      let off : Int := (hr * 60 + mm) * 60
      some (if s == '-' then -off else off, rest)
    else none
  | _ => none

/-- The standard layout chunks occurring in the nine formats. -/
inductive TChunk
  | lit (c : Char)
  | longYear
  | zeroMonth
  | zeroDay
  | hourNum
  | zeroMinute
  | zeroSecond
  | fracSecond9
  | isoColonTZ
deriving DecidableEq

/-- Intermediate state of a layout-driven parse (Go's local variables
in `time.parse`); `month`/`day` start unset and default to 1. -/
structure TParse where
  year : Nat := 0
  month : Option Nat := none
  day : Option Nat := none
  hour : Nat := 0
  minute : Nat := 0
  sec : Nat := 0
  nsec : Nat := 0
  zOffset : Option Int := none
deriving DecidableEq

def isLeap (y : Nat) : Bool := y % 4 == 0 && (y % 100 != 0 || y % 400 == 0)

/-- Go `time.daysIn`. -/
def daysIn (m y : Nat) : Nat :=
  if m == 2 then (if isLeap y then 29 else 28)
  else if m == 4 || m == 6 || m == 9 || m == 11 then 30
  else 31

/-- The chunk-consumption loop of Go `time.parse`, with Go's immediate
range checks (month 1–12, hour < 24, minute < 60, second < 60) and the
"fractional second present though absent from the layout" special case
after the seconds chunk. -/
def parseChunks : List TChunk → List Char → TParse → Option (TParse × List Char)
  | [], v, st => some (st, v)
  | .lit c :: ks, v, st =>
    match v with
    | c0 :: v1 => if c0 == c then parseChunks ks v1 st else none
    | [] => none
  | .longYear :: ks, v, st =>
    match getnum4 v with
    | some (n, v1) => parseChunks ks v1 { st with year := n }
    | none => none
  | .zeroMonth :: ks, v, st =>
    match getnum true v with
    | some (n, v1) =>
      if n < 1 || 12 < n then none else parseChunks ks v1 { st with month := some n }
    | none => none
  | .zeroDay :: ks, v, st =>
    match getnum true v with
    | some (n, v1) => parseChunks ks v1 { st with day := some n }
    | none => none
  | .hourNum :: ks, v, st =>
    match getnum false v with
    | some (n, v1) =>
      if 24 ≤ n then none else parseChunks ks v1 { st with hour := n }
    | none => none
  | .zeroMinute :: ks, v, st =>
    match getnum true v with
    | some (n, v1) =>
      if 60 ≤ n then none else parseChunks ks v1 { st with minute := n }
    | none => none
  | .zeroSecond :: ks, v, st =>
    match getnum true v with
    | none => none
    | some (n, v1) =>
      if 60 ≤ n then none
      else
        match ks with
        | .fracSecond9 :: _ => parseChunks ks v1 { st with sec := n }
        | _ =>
          match v1 with
          | c0 :: c1 :: _ =>
            if commaOrPeriod c0 && isDigitChar c1 then
              let ds := (v1.drop 1).takeWhile isDigitChar
              parseChunks ks (v1.drop (1 + ds.length)) { st with sec := n, nsec := nanosOf ds }
            else parseChunks ks v1 { st with sec := n }
          | _ => parseChunks ks v1 { st with sec := n }
  | .fracSecond9 :: ks, v, st =>
    match v with
    | c0 :: c1 :: _ =>
      if commaOrPeriod c0 && isDigitChar c1 then
        let run := (v.drop 1).takeWhile isDigitChar
        let taken := run.take 9
        parseChunks ks (v.drop (1 + taken.length)) { st with nsec := nanosOf taken }
      else parseChunks ks v st
    | _ => parseChunks ks v st
  | .isoColonTZ :: ks, v, st =>
    match parseISOColonTZ v with
    | some (off, v1) => parseChunks ks v1 { st with zOffset := some off }
    | none => none

/-- Go `time.Parse`/`time.ParseInLocation(_, _, time.UTC)` for one of
the nine layouts: consume every chunk, require the input exhausted,
default month and day to 1, validate the day of the month, and default
the zone to UTC when the layout carries none. -/
def goParseLayout (ks : List TChunk) (s : String) : Option GoTime :=
  match parseChunks ks s.data {} with
  | none => none
  | some (st, rest) =>
    if !rest.isEmpty then none
    else
      let month := st.month.getD 1
      let day := st.day.getD 1
      if day < 1 || daysIn month st.year < day then none
      else some ⟨st.year, month, day, st.hour, st.minute, st.sec, st.nsec, st.zOffset.getD 0⟩

def layoutRFC3339 : List TChunk :=
  [.longYear, .lit '-', .zeroMonth, .lit '-', .zeroDay, .lit 'T',
   .hourNum, .lit ':', .zeroMinute, .lit ':', .zeroSecond, .isoColonTZ]

def layoutRFC3339Nano : List TChunk :=
  [.longYear, .lit '-', .zeroMonth, .lit '-', .zeroDay, .lit 'T',
   .hourNum, .lit ':', .zeroMinute, .lit ':', .zeroSecond, .fracSecond9, .isoColonTZ]

def layoutSQLDateTime : List TChunk :=
  [.longYear, .lit '-', .zeroMonth, .lit '-', .zeroDay, .lit ' ',
   .hourNum, .lit ':', .zeroMinute, .lit ':', .zeroSecond]

def layoutDateOnly : List TChunk :=
  [.longYear, .lit '-', .zeroMonth, .lit '-', .zeroDay]

def layoutTimeOnly : List TChunk :=
  [.hourNum, .lit ':', .zeroMinute, .lit ':', .zeroSecond]

def layoutUSDate : List TChunk :=
  [.zeroMonth, .lit '/', .zeroDay, .lit '/', .longYear]

def layoutUSDateTime : List TChunk :=
  layoutUSDate ++ [.lit ' ', .hourNum, .lit ':', .zeroMinute, .lit ':', .zeroSecond]

def layoutEuroDate : List TChunk :=
  [.zeroDay, .lit '/', .zeroMonth, .lit '/', .longYear]

def layoutEuroDateTime : List TChunk :=
  layoutEuroDate ++ [.lit ' ', .hourNum, .lit ':', .zeroMinute, .lit ':', .zeroSecond]

/-- The `formats` slice of `setFieldValue`, in source order. -/
def timeFormats : List (List TChunk) :=
  [layoutRFC3339, layoutRFC3339Nano, layoutSQLDateTime, layoutDateOnly, layoutTimeOnly,
   layoutUSDate, layoutUSDateTime, layoutEuroDate, layoutEuroDateTime]

/-- The `for _, format := range formats` trial loop of
`setFieldValue`: first successful parse wins. -/
def tryTimeFormats : List (List TChunk) → String → Option GoTime
  | [], _ => none
  | f :: fs, s =>
    match goParseLayout f s with
    | some t => some t
    | none => tryTimeFormats fs s

/-- Days since 1970-01-01 of a proleptic-Gregorian civil date
(executable form of the standard civil-from-days inverse). -/
def daysFromCivil (y m d : Int) : Int :=
  let y2 := if m ≤ 2 then y - 1 else y
  let era : Int := (if 0 ≤ y2 then y2 else y2 - 399) / 400
  let yoe := y2 - era * 400
  let mp := (m + 9) % 12
  let doy := (153 * mp + 2) / 5 + d - 1
  let doe := yoe * 365 + yoe / 4 - yoe / 100 + doy
  era * 146097 + doe - 719468

/-- The instant a parsed `GoTime` denotes, as Unix seconds: the wall
clock shifted back by the zone offset. -/
def toUnix (t : GoTime) : Int :=
  daysFromCivil t.year t.month t.day * 86400 +
    t.hour * 3600 + t.minute * 60 + t.sec - t.offset

/-! ## The data model of the engine -/

/-- The reflect-level shape of a target field's type: the kinds
`setFieldValue` distinguishes.  `structT` is any struct type other
than `time.Time`; `otherT` is any remaining kind (slice, map, ...). -/
inductive GoType
  | stringT
  | intT
  | uintT
  | floatT
  | boolT
  | timeT
  | structT (name : String)
  | ptrT (t : GoType)
  | otherT (kindName : String)
deriving DecidableEq

/-- A reflection value held in a struct field.  `nilPtr` is a nil
pointer; `unsetV` stands for the (never-read) zero value of field types
the coercer does not support. -/
inductive Value
  | str (s : String)
  | intV (n : Int)
  | uintV (n : Nat)
  | floatV (f : GoFloat)
  | boolV (b : Bool)
  | timeV (t : GoTime)
  | ptrV (v : Value)
  | nilPtr
  | unsetV
deriving DecidableEq

/-- The Go zero value of each field type (`var result T`). -/
def zeroValue : GoType → Value
  | .stringT => .str ""
  | .intT => .intV 0
  | .uintT => .uintV 0
  | .floatT => .floatV (.finite 0)
  | .boolT => .boolV false
  | .timeT => .timeV ⟨1, 1, 1, 0, 0, 0, 0, 0⟩
  | .ptrT _ => .nilPtr
  | .structT _ => .unsetV
  | .otherT _ => .unsetV

/-- One field of the target struct type, as the schema analyzer sees
it: name, exportedness, the raw value of its `csv` tag (Go
`StructTag.Get` returns `""` when the tag is absent), and its type. -/
structure StructField where
  name : String
  exported : Bool
  tag : String
  type : GoType
deriving DecidableEq

/-- The `fieldInfo` plan entry built by `buildFieldInfo`. -/
structure FieldInfo where
  fieldIndex : Nat
  csvColumn : String
  fieldType : GoType
  required : Bool
deriving DecidableEq

/-- A record instance: the target struct's field values in declaration
order. -/
def zeroRecord (structType : List StructField) : List Value :=
  structType.map (fun f => zeroValue f.type)

/-- Coercion errors: one constructor per `fmt.Errorf` template in
`setFieldValue`, carrying the interpolated text. -/
inductive CoerceErr
  | invalidInt (s : String)
  | invalidUint (s : String)
  | invalidFloat (s : String)
  | invalidBool (s : String)
  | invalidTime (s : String)
  | unsupportedStruct (name : String)
  | unsupportedKind (name : String)
deriving DecidableEq

/-- Errors surfaced by construction and `Next`: one constructor per
`fmt.Errorf` template in `newIterator`, `buildFieldInfo` and `Next`,
carrying the interpolated identities. -/
inductive GoErr
  | readHeadersFailed
  | missingTag (fieldName : String)
  | missingRequiredColumn (col fieldName : String)
  | missingRequiredCell (col : String)
  | fieldParse (fieldName col : String) (e : CoerceErr)
deriving DecidableEq

/-! ## The value coercer (`setFieldValue`) -/

/-- `setFieldValue(fieldValue, strValue, fieldType)`: returns the new
field value, or the coercion error.  `cur` is the value already held
by the field (returned unchanged by the branches that leave the zero
value in place). -/
def setFieldValue (cur : Value) (strValue : String) (fieldType : GoType) :
    Except CoerceErr Value :=
  match fieldType with
  | .stringT => .ok (.str strValue)
  | .intT =>
    if strValue = "" then .ok cur
    else
      match goParseInt64 strValue with
      | some n => .ok (.intV n)
      | none => .error (.invalidInt strValue)
  | .uintT =>
    if strValue = "" then .ok cur
    else
      match goParseUint64 strValue with
      | some n => .ok (.uintV n)
      | none => .error (.invalidUint strValue)
  | .floatT =>
    if strValue = "" then .ok cur
    else
      match goParseFloat strValue with
      | some q => .ok (.floatV q)
      | none => .error (.invalidFloat strValue)
  | .boolT =>
    if strValue = "" then .ok cur
    else
      match goParseBool strValue with
      | some b => .ok (.boolV b)
      | none => .error (.invalidBool strValue)
  | .timeT =>
    if strValue = "" then .ok cur
    else
      match tryTimeFormats timeFormats strValue with
      | some t => .ok (.timeV t)
      | none => .error (.invalidTime strValue)
  | .structT n => .error (.unsupportedStruct n)
  | .ptrT elemT =>
    if strValue = "" then .ok cur
    else
      match setFieldValue (zeroValue elemT) strValue elemT with
      | .error e => .error e
      | .ok v => .ok (.ptrV v)
  | .otherT k => .error (.unsupportedKind k)

/-! ## The header index (Go map from trimmed name to position) -/

/-- Insertion into the Go map `fieldMap` (later assignment to the same
key overwrites). -/
def mapInsert : List (String × Nat) → String → Nat → List (String × Nat)
  | [], k, v => [(k, v)]
  | (k2, v2) :: rest, k, v =>
    if k2 = k then (k, v) :: rest else (k2, v2) :: mapInsert rest k v

def mapGet? : List (String × Nat) → String → Option Nat
  | [], _ => none
  | (k2, v2) :: rest, k => if k2 = k then some v2 else mapGet? rest k

/-- Go map indexing `m[k]`: the zero value 0 when the key is absent. -/
def mapGetD (m : List (String × Nat)) (k : String) : Nat :=
  (mapGet? m k).getD 0

/-- The header-index construction loop of `newIterator`, with `i` the
position of the next header: `fieldMap[strings.TrimSpace(header)] = i`
for each header in order. -/
def buildFieldMapLoop : List (String × Nat) → Nat → List String → List (String × Nat)
  | m, _, [] => m
  | m, i, h :: hs => buildFieldMapLoop (mapInsert m (goTrimSpace h) i) (i + 1) hs

def buildFieldMap (headers : List String) : List (String × Nat) :=
  buildFieldMapLoop [] 0 headers

/-! ## The schema analyzer (`buildFieldInfo`) -/

/-- Go `strings.Split(tag, ",")` (structurally recursive form):
splitting an empty string yields one empty part, as in Go. -/
def splitOnComma : List Char → List (List Char)
  | [] => [[]]
  | c :: rest =>
    let r := splitOnComma rest
    if c == ',' then [] :: r
    else (c :: r.headD []) :: r.tail

/-- The column name of a `csv` tag: the trimmed text before the first
comma. -/
def tagColumn (tag : String) : String :=
  goTrimSpace ⟨(splitOnComma tag.data).headD []⟩

/-- Whether a `csv` tag carries the `required` directive: some later
comma-separated part trims to `"required"`. -/
def tagRequired (tag : String) : Bool :=
  ((splitOnComma tag.data).drop 1).any (fun part => goTrimSpace ⟨part⟩ == "required")

/-- The field loop of `buildFieldInfo`, with `i` the current field
index: skip unexported fields, fail on an empty `csv` tag, fail when a
required column is absent from the header index, silently skip an
optional absent column, otherwise append a plan entry. -/
def buildFieldInfoFrom (fieldMap : List (String × Nat)) :
    Nat → List StructField → Except GoErr (List FieldInfo)
  | _, [] => .ok []
  | i, f :: fs =>
    if f.exported = false then buildFieldInfoFrom fieldMap (i + 1) fs
    else if f.tag = "" then .error (.missingTag f.name)
    else
      let csvColumn := tagColumn f.tag
      let required := tagRequired f.tag
      match mapGet? fieldMap csvColumn with
      | none =>
        if required then .error (.missingRequiredColumn csvColumn f.name)
        else buildFieldInfoFrom fieldMap (i + 1) fs
      | some _ =>
        match buildFieldInfoFrom fieldMap (i + 1) fs with
        | .error e => .error e
        | .ok rest => .ok (⟨i, csvColumn, f.type, required⟩ :: rest)

def buildFieldInfo (structType : List StructField) (fieldMap : List (String × Nat)) :
    Except GoErr (List FieldInfo) :=
  buildFieldInfoFrom fieldMap 0 structType

/-! ## The iterator -/

/-- The state of the closable byte-stream resource behind the
iterator.  Modelled from the Go standard library: `os.File.Close`
(and an HTTP response body) reports an error when called again after
a successful close; `closeCount` counts how often the underlying
`Close` has been invoked. -/
structure CloserState where
  closed : Bool
  closeCount : Nat
deriving DecidableEq

inductive CloseErr
  | fileAlreadyClosed
deriving DecidableEq

/-- The underlying closer's `Close`: always invoked when called;
errors if the resource was already closed. -/
def closerClose (c : CloserState) : CloserState × Option CloseErr :=
  if c.closed then ({ c with closeCount := c.closeCount + 1 }, some .fileAlreadyClosed)
  else ({ closed := true, closeCount := c.closeCount + 1 }, none)

/-- The immutable part of a `CSVIterator` (built once at
construction). -/
structure Plan where
  fieldMap : List (String × Nat)
  structType : List StructField
  fieldInfo : List FieldInfo
deriving DecidableEq

/-- A `CSVIterator[T]`: the plan, the remaining tokenized rows, the
captured header row, and the optional closer. -/
structure Iterator where
  plan : Plan
  rows : List (List String)
  headers : List String
  closer : Option CloserState
deriving DecidableEq

/-- The per-row field loop of `Next`: for each plan entry resolve the
cell at the mapped column index (ragged rows: a required field whose
cell is physically absent is a row error, an optional one is skipped),
trim it, skip empty cells of non-required fields, and otherwise
delegate to `setFieldValue`, wrapping any coercion error with the
field and column identity. -/
def processFields (p : Plan) :
    List FieldInfo → List String → List Value → Except GoErr (List Value)
  | [], _, acc => .ok acc
  | f :: fs, record, acc =>
    let columnIndex := mapGetD p.fieldMap f.csvColumn
    if record.length ≤ columnIndex then
      if f.required then .error (.missingRequiredCell f.csvColumn)
      else processFields p fs record acc
    else
      let value := goTrimSpace (record.getD columnIndex "")
      if value = "" ∧ f.required = false then processFields p fs record acc
      else
        match setFieldValue (acc.getD f.fieldIndex .unsetV) value f.fieldType with
        | .error e =>
          .error (.fieldParse ((p.structType.getD f.fieldIndex ⟨"", false, "", .stringT⟩).name)
            f.csvColumn e)
        | .ok v => processFields p fs record (acc.set f.fieldIndex v)

/-- Parse one tokenized row into a record instance (`Next` minus the
row pull): start from the zero value of the target type and run the
field loop. -/
def processRow (p : Plan) (record : List String) : Except GoErr (List Value) :=
  processFields p p.fieldInfo record (zeroRecord p.structType)

/-- The outcome of one `Next` call: end of data, a record, or a row
error; in the latter two cases the row has been consumed. -/
inductive NextRes
  | eof
  | ok (r : List Value) (it : Iterator)
  | err (e : GoErr) (it : Iterator)
deriving DecidableEq

/-- `Next`: pull a row (end of data when none is left, reported as the
`io.EOF` sentinel, not an error), then materialize it. -/
def Iterator.next (it : Iterator) : NextRes :=
  match it.rows with
  | [] => .eof
  | record :: rest =>
    match processRow it.plan record with
    | .error e => .err e { it with rows := rest }
    | .ok r => .ok r { it with rows := rest }

/-- The loop body of `ToSlice`: repeatedly `Next`, break on end of
data returning the accumulated records, abort returning only the
error on any row failure (the collected slice is discarded). -/
def toSliceLoop (p : Plan) :
    List (List String) → List (List Value) → Except GoErr (List (List Value))
  | [], acc => .ok acc
  | record :: rest, acc =>
    match processRow p record with
    | .error e => .error e
    | .ok r => toSliceLoop p rest (acc ++ [r])

def Iterator.toSlice (it : Iterator) : Except GoErr (List (List Value)) :=
  toSliceLoop it.plan it.rows []

/-- The observable behaviour of `ForEach`: the sequence of callback
invocations.  The loop calls `Next`; end of data breaks without a
callback; otherwise the callback receives the record (or the error)
and its boolean return decides continuation. -/
def forEachLoop (p : Plan) (fn : Option (List Value) → Option GoErr → Bool) :
    List (List String) → List (Option (List Value) × Option GoErr)
  | [] => []
  | record :: rest =>
    match processRow p record with
    | .ok r =>
      if fn (some r) none then (some r, none) :: forEachLoop p fn rest
      else [(some r, none)]
    | .error e =>
      if fn none (some e) then (none, some e) :: forEachLoop p fn rest
      else [(none, some e)]

def Iterator.forEachCalls (it : Iterator)
    (fn : Option (List Value) → Option GoErr → Bool) :
    List (Option (List Value) × Option GoErr) :=
  forEachLoop it.plan fn it.rows

/-- `Close`: forward to the underlying closer when there is one (the
iterator keeps no record of earlier calls). -/
def Iterator.close (it : Iterator) : Iterator × Option CloseErr :=
  match it.closer with
  | none => (it, none)
  | some c =>
    let r := closerClose c
    ({ it with closer := some r.1 }, r.2)

/-- `newIterator`: read the header row (failing on an empty stream),
build the header index from trimmed names, analyze the struct type,
and return the iterator; any analyzer error aborts construction with
no iterator.  The target type is a struct descriptor by construction
(the reflect kind check of the source always passes here), and the
resource release on the failure paths is observable through the
absence of a constructed iterator. -/
def newIterator (stream : List (List String)) (structType : List StructField)
    (closer : Option CloserState) : Except GoErr Iterator :=
  match stream with
  | [] => .error .readHeadersFailed
  | headers :: rows =>
    let fieldMap := buildFieldMap headers
    match buildFieldInfo structType fieldMap with
    | .error e => .error e
    | .ok fi => .ok ⟨⟨fieldMap, structType, fi⟩, rows, headers, closer⟩

/-! ## Theorems -/

deriving instance DecidableEq for Except

/-- The single-required-string-field target type (`Name string
csv:"name,required"`) used for the C1 evaluation. -/
def c1Type : List StructField := [⟨"Name", true, "name,required", .stringT⟩]

/-- The plan `newIterator` builds for `c1Type` against the header row
`name`. -/
def c1Plan : Plan := ⟨[("name", 0)], c1Type, [⟨0, "name", .stringT, true⟩]⟩

/-- **C1** (code bug).  The claim (and the package documentation:
"Required fields: Generate an error if empty") says a required field
whose cell is empty after trimming makes `Next` fail with a
missing-required-value error.  The code only errors when the physical
row is too short to contain the cell: an empty (or blank) cell of a
required field falls through to `setFieldValue` with the empty string,
which succeeds for every supported type and leaves the zero value.
This theorem evaluates the code at the failing input: for the header
`name` and the row consisting of one empty cell, `Next` returns a
record with `Name = ""` and no error, while for the physically short
row (no cells) it does return the row-level error naming the
column. -/
theorem c1_requiredEmptyCell_noError :
    newIterator [["name"], [""]] c1Type none = .ok ⟨c1Plan, [[""]], ["name"], none⟩
    ∧ (Iterator.next ⟨c1Plan, [[""]], ["name"], none⟩)
        = .ok [Value.str ""] ⟨c1Plan, [], ["name"], none⟩
    ∧ (Iterator.next ⟨c1Plan, [[]], ["name"], none⟩)
        = .err (.missingRequiredCell "name") ⟨c1Plan, [], ["name"], none⟩ := by
  refine ⟨by decide, by decide, by decide⟩

/-- Auxiliary: the trial loop returns the result of the first layout
in the list that parses the input, whenever every earlier layout
fails. -/
theorem tryFormats_first (fs : List (List TChunk)) (s : String) :
    ∀ (i : Nat) (t : GoTime), i < fs.length →
      goParseLayout (fs.getD i []) s = some t →
      (∀ j, j < i → goParseLayout (fs.getD j []) s = none) →
      tryTimeFormats fs s = some t := by
  induction fs with
  | nil => intro i t hi _ _; exact absurd hi (by simp)
  | cons f fs ih =>
    intro i t hi hparse hearlier
    cases i with
    | zero =>
      rw [List.getD_cons_zero] at hparse
      rw [tryTimeFormats, hparse]
    | succ n =>
      have h0 : goParseLayout f s = none := by
        have := hearlier 0 (Nat.succ_pos n)
        rwa [List.getD_cons_zero] at this
      rw [tryTimeFormats, h0]
      rw [List.getD_cons_succ] at hparse
      refine ih n t (by simpa using hi) hparse ?_
      intro j hj
      have := hearlier (j + 1) (by omega)
      rwa [List.getD_cons_succ] at this

/-- **C2** (confirmed).  The coercer tries the nine layouts of
`timeFormats` in the listed order and the first successful parse wins:
whenever layout `i` parses a cell and every earlier layout fails, the
trial returns layout `i`'s result, so a string parseable by an earlier
format is never interpreted by a later one.  Concretely, the ambiguous
cell `03/04/2024` is returned by the trial as March 4 2024 (US layout,
position 6 in the list), even though the European layout (position 8)
would read it as April 3 2024; the ordered coercer itself
(`setFieldValue` on a `time.Time` field) yields the US reading. -/
theorem c2_orderedFormatTrial :
    (∀ (s : String) (i : Nat) (t : GoTime), i < timeFormats.length →
        goParseLayout (timeFormats.getD i []) s = some t →
        (∀ j, j < i → goParseLayout (timeFormats.getD j []) s = none) →
        tryTimeFormats timeFormats s = some t)
    ∧ tryTimeFormats timeFormats "03/04/2024" = some ⟨2024, 3, 4, 0, 0, 0, 0, 0⟩
    ∧ goParseLayout layoutUSDate "03/04/2024" = some ⟨2024, 3, 4, 0, 0, 0, 0, 0⟩
    ∧ goParseLayout layoutEuroDate "03/04/2024" = some ⟨2024, 4, 3, 0, 0, 0, 0, 0⟩
    ∧ setFieldValue (zeroValue .timeT) "03/04/2024" .timeT
        = .ok (.timeV ⟨2024, 3, 4, 0, 0, 0, 0, 0⟩) := by
  refine ⟨fun s i t => tryFormats_first timeFormats s i t, by decide, by decide, by decide,
    by decide⟩

/-- Witness for C2: the first-match property instantiated at the
ambiguous cell `03/04/2024` and the US layout (index 5, the sixth
format), discharging each hypothesis by evaluation. -/
theorem c2_orderedFormatTrial_witness :
    tryTimeFormats timeFormats "03/04/2024" = some ⟨2024, 3, 4, 0, 0, 0, 0, 0⟩ :=
  c2_orderedFormatTrial.1 "03/04/2024" 5 ⟨2024, 3, 4, 0, 0, 0, 0, 0⟩ (by decide)
    (by decide) (by decide)

/-- Auxiliary: the chunk loop never touches the zone offset unless
the layout contains the `Z07:00` chunk. -/
theorem parseChunks_zOffset (ks : List TChunk) :
    TChunk.isoColonTZ ∉ ks →
    ∀ (v : List Char) (st st2 : TParse) (rest : List Char),
      parseChunks ks v st = some (st2, rest) → st2.zOffset = st.zOffset := by
  induction ks with
  | nil =>
    intro _ v st st2 rest h
    simp only [parseChunks, Option.some.injEq, Prod.mk.injEq] at h
    rw [h.1]
  | cons k ks ih =>
    intro hmem v st st2 rest h
    have hks : TChunk.isoColonTZ ∉ ks := fun hm => hmem (List.mem_cons_of_mem _ hm)
    cases k <;> simp only [parseChunks] at h <;>
      first
        | exact absurd (List.mem_cons_self _ _) hmem
        | (repeat' split at h) <;>
            first
              | exact (ih hks _ _ _ _ h).trans rfl
              | simp at h

/-- Auxiliary: a layout without a zone chunk parses to UTC (offset
zero), whatever the input. -/
theorem goParseLayout_offset (ks : List TChunk) (hks : TChunk.isoColonTZ ∉ ks)
    (s : String) (t : GoTime) (h : goParseLayout ks s = some t) : t.offset = 0 := by
  unfold goParseLayout at h
  split at h
  next hp => simp at h
  next st2 rest hp =>
    have hz : st2.zOffset = none := parseChunks_zOffset ks hks s.data {} st2 rest hp
    split at h
    · simp at h
    · dsimp only at h
      split at h
      · simp at h
      · simp only [Option.some.injEq] at h
        subst h
        simp [hz]

/-- Auxiliary: if every layout in the list lacks a zone chunk, a
successful trial yields offset zero. -/
theorem tryFormats_offset (fs : List (List TChunk)) :
    (∀ f ∈ fs, TChunk.isoColonTZ ∉ f) →
    ∀ (s : String) (t : GoTime), tryTimeFormats fs s = some t → t.offset = 0 := by
  induction fs with
  | nil => intro _ s t h; exact absurd h (by simp [tryTimeFormats])
  | cons f fs ih =>
    intro hall s t h
    rw [tryTimeFormats] at h
    cases hp : goParseLayout f s with
    | some t2 =>
      rw [hp] at h
      simp only [Option.some.injEq] at h
      rw [h] at hp
      exact goParseLayout_offset f (hall f (List.mem_cons_self _ _)) s t hp
    | none =>
      rw [hp] at h
      exact ih (fun g hg => hall g (List.mem_cons_of_mem _ hg)) s t h

/-- **C3** (confirmed).  Formats 3–9 carry no timezone chunk, so
whenever the two timezone-qualified ISO-8601 layouts fail and the
trial still succeeds, the parse ran under the fixed UTC reference
frame (`ParseInLocation(format, value, time.UTC)`) and the resulting
offset is zero.  Concretely, the cell `2024-03-15` yields UTC midnight
of March 15 2024 (Unix second 1710460800), while the
timezone-qualified cells `2024-03-15T18:00:00Z` and
`2024-03-15T18:00:00+05:30` preserve their explicit offsets (0 and
+5:30 = 19800 seconds), denoting Unix seconds 1710525600 and
1710505800. -/
theorem c3_utcReferenceFrame :
    (∀ (s : String) (t : GoTime),
        goParseLayout layoutRFC3339 s = none →
        goParseLayout layoutRFC3339Nano s = none →
        tryTimeFormats timeFormats s = some t → t.offset = 0)
    ∧ tryTimeFormats timeFormats "2024-03-15" = some ⟨2024, 3, 15, 0, 0, 0, 0, 0⟩
    ∧ toUnix ⟨2024, 3, 15, 0, 0, 0, 0, 0⟩ = 1710460800
    ∧ tryTimeFormats timeFormats "2024-03-15T18:00:00Z" = some ⟨2024, 3, 15, 18, 0, 0, 0, 0⟩
    ∧ toUnix ⟨2024, 3, 15, 18, 0, 0, 0, 0⟩ = 1710525600
    ∧ tryTimeFormats timeFormats "2024-03-15T18:00:00+05:30"
        = some ⟨2024, 3, 15, 18, 0, 0, 0, 19800⟩
    ∧ toUnix ⟨2024, 3, 15, 18, 0, 0, 0, 19800⟩ = 1710505800 := by
  refine ⟨?_, by decide, by decide, by decide, by decide, by decide, by decide⟩
  intro s t h1 h2 htrial
  rw [timeFormats, tryTimeFormats, h1, tryTimeFormats, h2] at htrial
  refine tryFormats_offset _ ?_ s t htrial
  decide

/-- Witness for C3: the UTC-frame property instantiated at the cell
`2024-03-15`, discharging each hypothesis by evaluation. -/
theorem c3_utcReferenceFrame_witness :
    (GoTime.mk 2024 3 15 0 0 0 0 0).offset = 0 :=
  c3_utcReferenceFrame.1 "2024-03-15" ⟨2024, 3, 15, 0, 0, 0, 0, 0⟩ (by decide) (by decide)
    (by decide)

/-! ### Schema-analyzer lemmas (C4, C5) -/

/-- The default `StructField` used with `List.getD`. -/
def dfltField : StructField := ⟨"", false, "", .stringT⟩

/-- A field the analyzer passes without aborting construction:
unexported, or annotated and either bound to a present column or
optional. -/
def fieldBuildOK (fieldMap : List (String × Nat)) (g : StructField) : Prop :=
  g.exported = true →
    (g.tag ≠ "" ∧ (mapGet? fieldMap (tagColumn g.tag) = none → tagRequired g.tag = false))

/-- A field on which the analyzer aborts construction: exported and
either unannotated or required with its column absent. -/
def fieldFault (fieldMap : List (String × Nat)) (g : StructField) : Prop :=
  g.exported = true ∧
    (g.tag = "" ∨ (tagRequired g.tag = true ∧ mapGet? fieldMap (tagColumn g.tag) = none))

/-- The error the analyzer reports when it reaches a faulty field. -/
def fieldFaultErr (g : StructField) : GoErr :=
  if g.tag = "" then .missingTag g.name
  else .missingRequiredColumn (tagColumn g.tag) g.name

theorem getD_mem_of_lt {α : Type} {l : List α} {i : Nat} (h : i < l.length) (d : α) :
    l.getD i d ∈ l := by
  induction l generalizing i with
  | nil => simp at h
  | cons x xs ih =>
    cases i with
    | zero => rw [List.getD_cons_zero]; exact List.mem_cons_self _ _
    | succ n => rw [List.getD_cons_succ]; exact List.mem_cons_of_mem _ (ih (by simpa using h))

/-- Auxiliary: the analyzer never returns a plan when some field of
the type is faulty. -/
theorem buildFieldInfoFrom_fault_not_ok (fieldMap : List (String × Nat)) :
    ∀ (fs : List StructField) (k : Nat), (∃ g ∈ fs, fieldFault fieldMap g) →
      ∀ l, buildFieldInfoFrom fieldMap k fs ≠ .ok l := by
  intro fs
  induction fs with
  | nil =>
    rintro k ⟨g, hg, _⟩ l
    simp at hg
  | cons f fs ih =>
    rintro k ⟨g, hg, hfault⟩ l
    rcases List.mem_cons.mp hg with hgf | hgtail
    · subst hgf
      obtain ⟨hexp, hcase⟩ := hfault
      rw [buildFieldInfoFrom, if_neg (by simp [hexp])]
      by_cases htag0 : g.tag = ""
      · rw [if_pos htag0]; simp
      · rw [if_neg htag0]
        rcases hcase with h | ⟨hreq, habs⟩
        · exact absurd h htag0
        · dsimp only
          rw [habs, if_pos hreq]
          simp
    · by_cases hexp : f.exported = false
      · rw [buildFieldInfoFrom, if_pos hexp]
        exact ih (k + 1) ⟨g, hgtail, hfault⟩ l
      · by_cases htag0 : f.tag = ""
        · rw [buildFieldInfoFrom, if_neg hexp, if_pos htag0]; simp
        · rw [buildFieldInfoFrom, if_neg hexp, if_neg htag0]
          dsimp only
          cases hlook : mapGet? fieldMap (tagColumn f.tag) with
          | none =>
            by_cases hreqf : tagRequired f.tag = true
            · rw [if_pos hreqf]; simp
            · rw [if_neg hreqf]
              exact ih (k + 1) ⟨g, hgtail, hfault⟩ l
          | some w =>
            cases hrec : buildFieldInfoFrom fieldMap (k + 1) fs with
            | error e => simp
            | ok rest => exact absurd hrec (ih (k + 1) ⟨g, hgtail, hfault⟩ rest)

/-- Auxiliary: when every field before position `i` is acceptable and
the field at `i` is faulty, the analyzer reports exactly that field's
error. -/
theorem buildFieldInfoFrom_firstFault (fieldMap : List (String × Nat)) :
    ∀ (fs : List StructField) (k i : Nat),
      i < fs.length →
      (∀ j, j < i → fieldBuildOK fieldMap (fs.getD j dfltField)) →
      fieldFault fieldMap (fs.getD i dfltField) →
      buildFieldInfoFrom fieldMap k fs = .error (fieldFaultErr (fs.getD i dfltField)) := by
  intro fs
  induction fs with
  | nil => intro k i hi _ _; simp at hi
  | cons f fs ih =>
    intro k i hi hOK hfault
    cases i with
    | zero =>
      rw [List.getD_cons_zero] at hfault ⊢
      obtain ⟨hexp, hcase⟩ := hfault
      rw [buildFieldInfoFrom, if_neg (by simp [hexp])]
      by_cases htag0 : f.tag = ""
      · rw [if_pos htag0, fieldFaultErr, if_pos htag0]
      · rw [if_neg htag0]
        rcases hcase with h | ⟨hreq, habs⟩
        · exact absurd h htag0
        · dsimp only
          rw [habs, if_pos hreq, fieldFaultErr, if_neg htag0]
    | succ n =>
      have hOK0 := hOK 0 (Nat.succ_pos n)
      rw [List.getD_cons_zero] at hOK0
      rw [List.getD_cons_succ] at hfault ⊢
      have hOKtail : ∀ j, j < n → fieldBuildOK fieldMap (fs.getD j dfltField) := by
        intro j hj
        have := hOK (j + 1) (by omega)
        rwa [List.getD_cons_succ] at this
      have hlen : n < fs.length := by simpa using hi
      by_cases hexp : f.exported = false
      · rw [buildFieldInfoFrom, if_pos hexp]
        exact ih (k + 1) n hlen hOKtail hfault
      · have hexp2 : f.exported = true := by simpa using hexp
        obtain ⟨htagf, himp⟩ := hOK0 hexp2
        rw [buildFieldInfoFrom, if_neg hexp, if_neg htagf]
        dsimp only
        cases hlook : mapGet? fieldMap (tagColumn f.tag) with
        | none =>
          rw [if_neg (by rw [himp hlook]; exact Bool.false_ne_true)]
          exact ih (k + 1) n hlen hOKtail hfault
        | some w =>
          rw [ih (k + 1) n hlen hOKtail hfault]

/-- The two-field type of the C4 counterexample: an exported
unannotated field declared before a required field whose column is
absent from the header. -/
def c4CxType : List StructField :=
  [⟨"Extra", true, "", .stringT⟩, ⟨"Email", true, "email,required", .stringT⟩]

/-- **C4 counterexample.**  The claim says that whenever a required
field's annotated column is absent from the trimmed header index,
construction fails *with an error naming the missing column*.  For
the header `name` and the type `c4CxType` (field `Email` is required
and its column `email` is absent), construction does fail — but with
the earlier field's missing-annotation error, which names no column at
all, refuting the naming part of the claim at this input. -/
theorem c4_counterexample :
    newIterator [["name"], ["x"]] c4CxType none = .error (.missingTag "Extra")
    ∧ newIterator [["name"], ["x"]] c4CxType none
        ≠ .error (.missingRequiredColumn "email" "Email") := by
  exact ⟨by decide, by decide⟩

/-- **C4** (corrected).  Whenever some field of the target type is
required and its annotated column is absent from the trimmed header
index, construction always fails and no iterator is created (so the
condition can never surface during row iteration); the error names
the missing column provided no earlier field in declaration order is
itself faulty (unannotated, or required with its own column absent) —
otherwise that earlier field's construction error is reported
instead. -/
theorem c4_requiredColumnAbsent_failsConstruction (structType : List StructField)
    (headers : List String) (rows : List (List String)) (closer : Option CloserState)
    (i : Nat) (hi : i < structType.length)
    (hexp : (structType.getD i dfltField).exported = true)
    (htag : (structType.getD i dfltField).tag ≠ "")
    (hreq : tagRequired (structType.getD i dfltField).tag = true)
    (habs : mapGet? (buildFieldMap headers) (tagColumn (structType.getD i dfltField).tag)
      = none) :
    (∃ e, newIterator (headers :: rows) structType closer = .error e)
    ∧ ((∀ j, j < i → fieldBuildOK (buildFieldMap headers) (structType.getD j dfltField)) →
        newIterator (headers :: rows) structType closer
          = .error (.missingRequiredColumn (tagColumn (structType.getD i dfltField).tag)
              (structType.getD i dfltField).name)) := by
  have hfault : fieldFault (buildFieldMap headers) (structType.getD i dfltField) :=
    ⟨hexp, Or.inr ⟨hreq, habs⟩⟩
  constructor
  · cases hv : buildFieldInfo structType (buildFieldMap headers) with
    | error e =>
      refine ⟨e, ?_⟩
      rw [newIterator]
      rw [hv]
    | ok fi =>
      have hmem := getD_mem_of_lt hi dfltField
      exact absurd hv
        (buildFieldInfoFrom_fault_not_ok (buildFieldMap headers) structType 0
          ⟨structType.getD i dfltField, hmem, hfault⟩ fi)
  · intro hOK
    have hv := buildFieldInfoFrom_firstFault (buildFieldMap headers) structType 0 i hi hOK hfault
    rw [newIterator, buildFieldInfo, hv, fieldFaultErr, if_neg htag]

/-- Witness for C4: the theorem applied to the single-field type
`Email string csv:"email,required"` against a header lacking `email`,
discharging each hypothesis by evaluation. -/
theorem c4_requiredColumnAbsent_witness :
    newIterator [["name"], ["x"]] [⟨"Email", true, "email,required", .stringT⟩] none
      = .error (.missingRequiredColumn "email" "Email") :=
  (c4_requiredColumnAbsent_failsConstruction
      [⟨"Email", true, "email,required", .stringT⟩] ["name"] [["x"]] none 0
      (by decide) (by decide) (by decide) (by decide) (by decide)).2
    (by intro j hj; exact absurd hj (by omega))

/-- The two-field type of the C5 counterexample: a required field
whose column is absent, declared before an exported unannotated
field. -/
def c5CxType : List StructField :=
  [⟨"Email", true, "email,required", .stringT⟩, ⟨"Extra", true, "", .stringT⟩]

/-- **C5 counterexample.**  The claim says that whenever the target
type contains an exported field with no csv annotation, construction
fails *with an error naming that field*.  For the header `name` and
the type `c5CxType` (field `Extra` carries no annotation),
construction does fail — but with the earlier field's
missing-required-column error, which does not name `Extra`, refuting
the naming part of the claim at this input. -/
theorem c5_counterexample :
    newIterator [["name"], ["x"]] c5CxType none
      = .error (.missingRequiredColumn "email" "Email")
    ∧ newIterator [["name"], ["x"]] c5CxType none ≠ .error (.missingTag "Extra") := by
  exact ⟨by decide, by decide⟩

/-- **C5** (corrected).  Whenever the target type contains an
exported field with no csv annotation, construction always fails fast
and no iterator (not even a partial one) is returned — the field is
never silently skipped; the error names that field provided no
earlier field in declaration order is itself faulty (unannotated, or
required with its column absent from the header) — otherwise that
earlier field's construction error is reported instead. -/
theorem c5_unannotatedField_failsConstruction (structType : List StructField)
    (headers : List String) (rows : List (List String)) (closer : Option CloserState)
    (i : Nat) (hi : i < structType.length)
    (hexp : (structType.getD i dfltField).exported = true)
    (htag : (structType.getD i dfltField).tag = "") :
    (∃ e, newIterator (headers :: rows) structType closer = .error e)
    ∧ ((∀ j, j < i → fieldBuildOK (buildFieldMap headers) (structType.getD j dfltField)) →
        newIterator (headers :: rows) structType closer
          = .error (.missingTag (structType.getD i dfltField).name)) := by
  have hfault : fieldFault (buildFieldMap headers) (structType.getD i dfltField) :=
    ⟨hexp, Or.inl htag⟩
  constructor
  · cases hv : buildFieldInfo structType (buildFieldMap headers) with
    | error e =>
      refine ⟨e, ?_⟩
      rw [newIterator]
      rw [hv]
    | ok fi =>
      have hmem := getD_mem_of_lt hi dfltField
      exact absurd hv
        (buildFieldInfoFrom_fault_not_ok (buildFieldMap headers) structType 0
          ⟨structType.getD i dfltField, hmem, hfault⟩ fi)
  · intro hOK
    have hv := buildFieldInfoFrom_firstFault (buildFieldMap headers) structType 0 i hi hOK hfault
    rw [newIterator, buildFieldInfo, hv, fieldFaultErr, if_pos htag]

/-- Witness for C5: the theorem applied to a type whose second field
lacks the annotation, preceded by a well-bound field, discharging each
hypothesis by evaluation. -/
theorem c5_unannotatedField_witness :
    newIterator [["name"], ["x"]]
      [⟨"Name", true, "name", .stringT⟩, ⟨"Extra", true, "", .stringT⟩] none
      = .error (.missingTag "Extra") :=
  (c5_unannotatedField_failsConstruction
      [⟨"Name", true, "name", .stringT⟩, ⟨"Extra", true, "", .stringT⟩] ["name"] [["x"]]
      none 1 (by decide) (by decide) (by decide)).2
    (by
      intro j hj
      interval_cases j
      · intro _
        exact ⟨by decide, by decide⟩)

/-! ### Row-materializer lemmas (C6) -/

/-- The two skip conditions of the field loop of `Next` for one plan
entry and one physical row: the row is too short to contain the cell,
or the cell trims to empty and the field is not required. -/
def skipsEntry (p : Plan) (record : List String) (f : FieldInfo) : Prop :=
  record.length ≤ mapGetD p.fieldMap f.csvColumn ∨
    (goTrimSpace (record.getD (mapGetD p.fieldMap f.csvColumn) "") = "" ∧ f.required = false)

theorem set_getD_ne : ∀ (l : List Value) (j i : Nat), j ≠ i → ∀ (v d : Value),
    (l.set j v).getD i d = l.getD i d := by
  intro l
  induction l with
  | nil => intro j i _ v d; simp
  | cons x xs ih =>
    intro j i h v d
    cases j with
    | zero =>
      cases i with
      | zero => exact absurd rfl h
      | succ n => simp [List.set]
    | succ m =>
      cases i with
      | zero => simp [List.set]
      | succ n =>
        simp only [List.set, List.getD_cons_succ]
        exact ih m n (by omega) v d

/-- Auxiliary: `Next` on an iterator with at least one remaining row
materializes that row and advances the cursor. -/
theorem next_cons (it : Iterator) (record : List String) (rest : List (List String))
    (hrows : it.rows = record :: rest) :
    it.next = match processRow it.plan record with
      | .error e => .err e { it with rows := rest }
      | .ok r => .ok r { it with rows := rest } := by
  rw [Iterator.next, hrows]

theorem zeroRecord_getD {st : List StructField} {i : Nat} (h : i < st.length) :
    (zeroRecord st).getD i Value.unsetV = zeroValue ((st.getD i dfltField).type) := by
  induction st generalizing i with
  | nil => simp at h
  | cons f fs ih =>
    cases i with
    | zero => simp [zeroRecord]
    | succ n =>
      simp only [zeroRecord, List.map_cons, List.getD_cons_succ]
      exact ih (by simpa using h)

/-- Auxiliary: the field loop never changes a record slot that every
remaining entry either does not own or skips. -/
theorem processFields_preserves (p : Plan) :
    ∀ (fs : List FieldInfo) (record : List String) (acc r : List Value) (i : Nat) (d : Value),
      (∀ g ∈ fs, g.fieldIndex ≠ i ∨ skipsEntry p record g) →
      processFields p fs record acc = .ok r → r.getD i d = acc.getD i d := by
  intro fs
  induction fs with
  | nil =>
    intro record acc r i d _ h
    simp only [processFields, Except.ok.injEq] at h
    rw [h]
  | cons f fs ih =>
    intro record acc r i d hcond h
    have hcondTail : ∀ g ∈ fs, g.fieldIndex ≠ i ∨ skipsEntry p record g :=
      fun g hg => hcond g (List.mem_cons_of_mem _ hg)
    simp only [processFields] at h
    by_cases hshort : record.length ≤ mapGetD p.fieldMap f.csvColumn
    · rw [if_pos hshort] at h
      by_cases hreqf : f.required = true
      · rw [if_pos hreqf] at h; simp at h
      · rw [if_neg hreqf] at h
        exact ih record acc r i d hcondTail h
    · rw [if_neg hshort] at h
      by_cases hempty : goTrimSpace (record.getD (mapGetD p.fieldMap f.csvColumn) "") = ""
          ∧ f.required = false
      · rw [if_pos hempty] at h
        exact ih record acc r i d hcondTail h
      · rw [if_neg hempty] at h
        cases hset : setFieldValue (acc.getD f.fieldIndex .unsetV)
            (goTrimSpace (record.getD (mapGetD p.fieldMap f.csvColumn) "")) f.fieldType with
        | error e => rw [hset] at h; simp at h
        | ok v =>
          rw [hset] at h
          have hne : f.fieldIndex ≠ i := by
            rcases hcond f (List.mem_cons_self _ _) with h1 | h2
            · exact h1
            · rcases h2 with h2 | h2
              · exact absurd h2 hshort
              · exact absurd h2 hempty
          have hrest := ih record (acc.set f.fieldIndex v) r i d hcondTail h
          rw [hrest, set_getD_ne acc f.fieldIndex i hne v d]

/-- Auxiliary: a row on which every plan entry skips (non-required
and short or empty) materializes with no error and no change to the
zero record. -/
theorem processFields_allSkip (p : Plan) :
    ∀ (fs : List FieldInfo) (record : List String) (acc : List Value),
      (∀ g ∈ fs, g.required = false ∧ skipsEntry p record g) →
      processFields p fs record acc = .ok acc := by
  intro fs
  induction fs with
  | nil => intro record acc _; rfl
  | cons f fs ih =>
    intro record acc hall
    obtain ⟨hreqf, hskipf⟩ := hall f (List.mem_cons_self _ _)
    have htail : ∀ g ∈ fs, g.required = false ∧ skipsEntry p record g :=
      fun g hg => hall g (List.mem_cons_of_mem _ hg)
    simp only [processFields]
    by_cases hshort : record.length ≤ mapGetD p.fieldMap f.csvColumn
    · rw [if_pos hshort, if_neg (by rw [hreqf]; exact Bool.false_ne_true)]
      exact ih record acc htail
    · rw [if_neg hshort]
      rcases hskipf with h2 | h2
      · exact absurd h2 hshort
      · rw [if_pos h2]
        exact ih record acc htail

/-- Auxiliary: every plan entry the analyzer emits is indexed within
the analyzed suffix and carries the declared type of the struct field
it points at. -/
theorem buildFieldInfoFrom_bounds (fieldMap : List (String × Nat)) :
    ∀ (fs : List StructField) (k : Nat) (l : List FieldInfo),
      buildFieldInfoFrom fieldMap k fs = .ok l →
      ∀ g ∈ l, k ≤ g.fieldIndex ∧ g.fieldIndex < k + fs.length ∧
        g.fieldType = (fs.getD (g.fieldIndex - k) dfltField).type := by
  intro fs
  induction fs with
  | nil =>
    intro k l h g hg
    simp only [buildFieldInfoFrom, Except.ok.injEq] at h
    rw [← h] at hg
    simp at hg
  | cons f fs ih =>
    intro k l h g hg
    have step : ∀ l2, buildFieldInfoFrom fieldMap (k + 1) fs = .ok l2 → g ∈ l2 →
        k ≤ g.fieldIndex ∧ g.fieldIndex < k + (f :: fs).length ∧
          g.fieldType = ((f :: fs).getD (g.fieldIndex - k) dfltField).type := by
      intro l2 h2 hg2
      obtain ⟨hle, hlt, htype⟩ := ih (k + 1) l2 h2 g hg2
      refine ⟨by omega, by simp; omega, ?_⟩
      have harith : g.fieldIndex - k = (g.fieldIndex - (k + 1)) + 1 := by omega
      rw [harith, List.getD_cons_succ, htype]
    rw [buildFieldInfoFrom] at h
    by_cases hexp : f.exported = false
    · rw [if_pos hexp] at h
      exact step l h hg
    · rw [if_neg hexp] at h
      by_cases htag0 : f.tag = ""
      · rw [if_pos htag0] at h; simp at h
      · rw [if_neg htag0] at h
        dsimp only at h
        cases hlook : mapGet? fieldMap (tagColumn f.tag) with
        | none =>
          rw [hlook] at h
          by_cases hreqf : tagRequired f.tag = true
          · rw [if_pos hreqf] at h; simp at h
          · rw [if_neg hreqf] at h
            exact step l h hg
        | some w =>
          rw [hlook] at h
          cases hrec : buildFieldInfoFrom fieldMap (k + 1) fs with
          | error e => rw [hrec] at h; simp at h
          | ok rest =>
            rw [hrec] at h
            simp only [Except.ok.injEq] at h
            rw [← h] at hg
            rcases List.mem_cons.mp hg with rfl | hgrest
            · exact ⟨Nat.le_refl _, by simp, by simp⟩
            · exact step rest hrec hgrest

/-- Auxiliary: plan entries own pairwise distinct field indices. -/
theorem buildFieldInfoFrom_pairwise (fieldMap : List (String × Nat)) :
    ∀ (fs : List StructField) (k : Nat) (l : List FieldInfo),
      buildFieldInfoFrom fieldMap k fs = .ok l →
      l.Pairwise (fun a b => a.fieldIndex ≠ b.fieldIndex) := by
  intro fs
  induction fs with
  | nil =>
    intro k l h
    simp only [buildFieldInfoFrom, Except.ok.injEq] at h
    rw [← h]
    exact List.Pairwise.nil
  | cons f fs ih =>
    intro k l h
    rw [buildFieldInfoFrom] at h
    by_cases hexp : f.exported = false
    · rw [if_pos hexp] at h
      exact ih (k + 1) l h
    · rw [if_neg hexp] at h
      by_cases htag0 : f.tag = ""
      · rw [if_pos htag0] at h; simp at h
      · rw [if_neg htag0] at h
        dsimp only at h
        cases hlook : mapGet? fieldMap (tagColumn f.tag) with
        | none =>
          rw [hlook] at h
          by_cases hreqf : tagRequired f.tag = true
          · rw [if_pos hreqf] at h; simp at h
          · rw [if_neg hreqf] at h
            exact ih (k + 1) l h
        | some w =>
          rw [hlook] at h
          cases hrec : buildFieldInfoFrom fieldMap (k + 1) fs with
          | error e => rw [hrec] at h; simp at h
          | ok rest =>
            rw [hrec] at h
            simp only [Except.ok.injEq] at h
            rw [← h]
            refine List.pairwise_cons.mpr ⟨?_, ih (k + 1) rest hrec⟩
            intro b hb
            have := (buildFieldInfoFrom_bounds fieldMap fs (k + 1) rest hrec b hb).1
            simp only
            omega

theorem pairwise_ne_of_mem {l : List FieldInfo}
    (hp : l.Pairwise (fun a b => a.fieldIndex ≠ b.fieldIndex))
    {f g : FieldInfo} (hf : f ∈ l) (hg : g ∈ l) : g = f ∨ g.fieldIndex ≠ f.fieldIndex := by
  induction l with
  | nil => exact absurd hf (List.not_mem_nil f)
  | cons x xs ih =>
    obtain ⟨hx, hxs⟩ := List.pairwise_cons.mp hp
    rcases List.mem_cons.mp hf with rfl | hf2
    · rcases List.mem_cons.mp hg with rfl | hg2
      · exact Or.inl rfl
      · exact Or.inr (hx g hg2).symm
    · rcases List.mem_cons.mp hg with rfl | hg2
      · exact Or.inr (hx f hf2)
      · exact ih hxs hf2 hg2

/-- **C6** (confirmed).  For a plan produced by the schema analyzer
and a row on which a non-required plan entry's cell is physically
absent (row shorter than the mapped column index) or trims to the
empty string, materializing that row never writes that field: when
`Next` succeeds the field still holds its type's zero value (`nilPtr`
for pointer-wrapped optional fields, since `zeroValue (ptrT _) =
nilPtr`); and when every plan entry is non-required with an absent or
empty cell, `Next` succeeds outright, returning the all-zero record
with no error. -/
theorem c6_emptyOptionalZeroValue (it : Iterator) (record : List String)
    (rest : List (List String)) (hrows : it.rows = record :: rest)
    (hbuild : buildFieldInfo it.plan.structType it.plan.fieldMap = .ok it.plan.fieldInfo)
    (f : FieldInfo) (hmem : f ∈ it.plan.fieldInfo) (hreq : f.required = false)
    (hskip : skipsEntry it.plan record f) :
    (∀ (r : List Value) (it2 : Iterator), it.next = .ok r it2 →
        r.getD f.fieldIndex Value.unsetV
          = zeroValue ((it.plan.structType.getD f.fieldIndex dfltField).type))
    ∧ ((∀ g ∈ it.plan.fieldInfo, g.required = false ∧ skipsEntry it.plan record g) →
        it.next = .ok (zeroRecord it.plan.structType) { it with rows := rest }) := by
  have hpw := buildFieldInfoFrom_pairwise it.plan.fieldMap it.plan.structType 0
    it.plan.fieldInfo hbuild
  have hbounds := buildFieldInfoFrom_bounds it.plan.fieldMap it.plan.structType 0
    it.plan.fieldInfo hbuild f hmem
  constructor
  · intro r it2 hnext
    rw [next_cons it record rest hrows] at hnext
    cases hrow : processRow it.plan record with
    | error e => rw [hrow] at hnext; simp at hnext
    | ok r2 =>
      rw [hrow] at hnext
      simp only [NextRes.ok.injEq] at hnext
      obtain ⟨hr2, _⟩ := hnext
      rw [← hr2]
      have hcond : ∀ g ∈ it.plan.fieldInfo,
          g.fieldIndex ≠ f.fieldIndex ∨ skipsEntry it.plan record g := by
        intro g hg
        rcases pairwise_ne_of_mem hpw hmem hg with rfl | hne
        · exact Or.inr hskip
        · exact Or.inl hne
      have hpres := processFields_preserves it.plan it.plan.fieldInfo record
        (zeroRecord it.plan.structType) r2 f.fieldIndex Value.unsetV hcond hrow
      rw [hpres, zeroRecord_getD (by simpa using hbounds.2.1)]
  · intro hall
    rw [next_cons it record rest hrows, processRow,
      processFields_allSkip it.plan it.plan.fieldInfo record (zeroRecord it.plan.structType) hall]

/-- The concrete iterator of the C6 witness: optional fields `Name`
(string, empty cell) and `Salary` (pointer to float, cell physically
absent from the one-cell row). -/
def c6Iter : Iterator :=
  ⟨⟨[("name", 0), ("salary", 1)],
    [⟨"Name", true, "name", .stringT⟩, ⟨"Salary", true, "salary", .ptrT .floatT⟩],
    [⟨0, "name", .stringT, false⟩, ⟨1, "salary", .ptrT .floatT, false⟩]⟩,
   [[" "]], ["name", "salary"], none⟩

/-- Witness for C6: the theorem applied to `c6Iter` and its blank
one-cell row, discharging each hypothesis by evaluation; the
conclusion's second part exhibits the successful all-zero `Next`. -/
theorem c6_emptyOptionalZeroValue_witness :
    c6Iter.next = .ok (zeroRecord c6Iter.plan.structType) { c6Iter with rows := [] } :=
  (c6_emptyOptionalZeroValue c6Iter [" "] [] rfl (by decide)
      ⟨0, "name", .stringT, false⟩ (by decide) (by decide)
      (Or.inr ⟨by decide, rfl⟩)).2
    (by
      intro g hg
      rcases List.mem_cons.mp hg with rfl | hg2
      · exact ⟨rfl, Or.inr ⟨by decide, rfl⟩⟩
      · rcases List.mem_cons.mp hg2 with rfl | hg3
        · exact ⟨rfl, Or.inl (by decide)⟩
        · exact absurd hg3 (List.not_mem_nil g))

/-! ### Consumption modes (C7, C8) -/

/-- The sequence of outcomes repeated `Next` calls produce from the
iterator's current position up to end of data: each call consumes one
row, so the outcomes are the materializations of the remaining rows in
arrival order. -/
def nextOutcomes (it : Iterator) : List (Except GoErr (List Value)) :=
  it.rows.map (processRow it.plan)

/-- Auxiliary: `nextOutcomes` unfolds along `Next`: empty at end of
data, otherwise the current call's outcome followed by the outcomes of
the advanced iterator. -/
theorem nextOutcomes_eq (it : Iterator) :
    nextOutcomes it = match it.next with
      | .eof => []
      | .ok r it2 => .ok r :: nextOutcomes it2
      | .err e it2 => .error e :: nextOutcomes it2 := by
  cases hrows : it.rows with
  | nil =>
    have h : it.next = .eof := by rw [Iterator.next, hrows]
    rw [h]
    simp [nextOutcomes, hrows]
  | cons record rest =>
    rw [next_cons it record rest hrows]
    cases hrow : processRow it.plan record with
    | error e => simp [nextOutcomes, hrows, hrow]
    | ok r => simp [nextOutcomes, hrows, hrow]

/-- Spec-side collection of `Next` outcomes, following the spec's
words for `ToSlice`: records are accumulated in arrival order until
end of data; the first error aborts and is returned alone, discarding
everything collected so far. -/
def collectOutcomesSpec :
    List (Except GoErr (List Value)) → Except GoErr (List (List Value))
  | [] => .ok []
  | .error e :: _ => .error e
  | .ok r :: rest =>
    match collectOutcomesSpec rest with
    | .error e => .error e
    | .ok rs => .ok (r :: rs)

/-- Auxiliary: the accumulator loop of `ToSlice` computes the
spec-side collection prefixed with the accumulator. -/
theorem toSliceLoop_eq (p : Plan) :
    ∀ (rows : List (List String)) (acc : List (List Value)),
      toSliceLoop p rows acc = match collectOutcomesSpec (rows.map (processRow p)) with
        | .error e => .error e
        | .ok rs => .ok (acc ++ rs) := by
  intro rows
  induction rows with
  | nil => intro acc; simp [toSliceLoop, collectOutcomesSpec]
  | cons record rest ih =>
    intro acc
    cases hrow : processRow p record with
    | error e => simp [toSliceLoop, hrow, collectOutcomesSpec]
    | ok r =>
      simp only [toSliceLoop, hrow, List.map_cons, collectOutcomesSpec]
      rw [ih (acc ++ [r])]
      cases collectOutcomesSpec (rest.map (processRow p)) with
      | error e => rfl
      | ok rs => simp

/-- **C7** (confirmed).  `ToSlice` returns exactly what repeated
`Next` calls until end of data would yield, in arrival order: the
spec-side collection of the `Next` outcome sequence.  When some
`Next` call fails, the result is exactly that error with no record
list attached — everything collected before the failure is
discarded. -/
theorem c7_toSliceRefinesNext (it : Iterator) :
    it.toSlice = collectOutcomesSpec (nextOutcomes it) := by
  rw [Iterator.toSlice, toSliceLoop_eq it.plan it.rows [], nextOutcomes]
  cases collectOutcomesSpec (it.rows.map (processRow it.plan)) with
  | error e => rfl
  | ok rs => simp

/-- The two-row iterator of the C7 witness: one well-formed row and
one row whose `age` cell fails integer coercion. -/
def c7Iter : Iterator :=
  ⟨⟨[("age", 0)], [⟨"Age", true, "age", .intT⟩], [⟨0, "age", .intT, false⟩]⟩,
   [["41"], ["x"]], ["age"], none⟩

/-- Witness for C7: the refinement instantiated at `c7Iter`; both
sides evaluate to the error of the second row, discarding the first
row's record. -/
theorem c7_toSliceRefinesNext_witness :
    c7Iter.toSlice = collectOutcomesSpec (nextOutcomes c7Iter) :=
  c7_toSliceRefinesNext c7Iter

/-- Spec-side callback sequence for `ForEach`: one invocation per
outcome (record or error), continuing only while the callback returns
`true` — a `false` return stops consumption immediately even if more
outcomes remain; end of data is never passed to the callback. -/
def callbackCallsSpec (fn : Option (List Value) → Option GoErr → Bool) :
    List (Except GoErr (List Value)) → List (Option (List Value) × Option GoErr)
  | [] => []
  | .ok r :: os =>
    if fn (some r) none then (some r, none) :: callbackCallsSpec fn os
    else [(some r, none)]
  | .error e :: os =>
    if fn none (some e) then (none, some e) :: callbackCallsSpec fn os
    else [(none, some e)]

theorem forEachLoop_eq (p : Plan) (fn : Option (List Value) → Option GoErr → Bool) :
    ∀ rows, forEachLoop p fn rows = callbackCallsSpec fn (rows.map (processRow p)) := by
  intro rows
  induction rows with
  | nil => rfl
  | cons record rest ih =>
    rw [forEachLoop]
    cases hrow : processRow p record with
    | ok r => simp [hrow, callbackCallsSpec, ih]
    | error e => simp [hrow, callbackCallsSpec, ih]

/-- Auxiliary: `Next` reports end of data exactly when no rows
remain. -/
theorem next_eof_rows (it : Iterator) (h : it.next = .eof) : it.rows = [] := by
  cases hrows : it.rows with
  | nil => rfl
  | cons record rest =>
    rw [next_cons it record rest hrows] at h
    cases hrow : processRow it.plan record with
    | error e => rw [hrow] at h; simp at h
    | ok r => rw [hrow] at h; simp at h

/-- **C8** (confirmed).  The callback sequence `ForEach` produces is
exactly the spec-side protocol over the `Next` outcome sequence: one
invocation per outcome (record or row error), stopping immediately
after the first invocation that returns `false` even if more rows
remain; and when `Next` signals end of data the loop stops without
invoking the callback at all for that condition. -/
theorem c8_forEachCallbackProtocol (it : Iterator)
    (fn : Option (List Value) → Option GoErr → Bool) :
    it.forEachCalls fn = callbackCallsSpec fn (nextOutcomes it)
    ∧ (it.next = .eof → it.forEachCalls fn = []) := by
  constructor
  · rw [Iterator.forEachCalls, nextOutcomes, forEachLoop_eq]
  · intro h
    rw [Iterator.forEachCalls, next_eof_rows it h]
    rfl

/-- The empty-stream iterator of the C8 witness. -/
def c8Iter : Iterator := ⟨⟨[], [], []⟩, [], ["h"], none⟩

/-- Witness for C8: the protocol theorem applied to an exhausted
iterator and a constant callback, discharging the end-of-data
hypothesis by evaluation. -/
theorem c8_forEachCallbackProtocol_witness :
    c8Iter.forEachCalls (fun _ _ => true) = [] :=
  (c8_forEachCallbackProtocol c8Iter (fun _ _ => true)).2 (by decide)

/-! ### Close (C9) -/

/-- The freshly opened file-backed iterator of the C9
counterexample. -/
def c9Iter : Iterator := ⟨⟨[], [], []⟩, [], [], some ⟨false, 0⟩⟩

/-- **C9 counterexample.**  The claim says `Close` releases the
underlying resource exactly once and a second call has the same
effect as the first.  On a file-backed iterator whose resource is
open, the first `Close` returns no error, but the second call
forwards to the underlying closer again: the underlying `Close` has
then been invoked twice (`closeCount = 2`, not once) and the second
call returns the already-closed error — not the same effect as the
first call. -/
theorem c9_counterexample :
    (c9Iter.close).2 = none
    ∧ ((c9Iter.close).1.close).2 = some .fileAlreadyClosed
    ∧ ((c9Iter.close).1.close).1.closer = some ⟨true, 2⟩ := by
  exact ⟨by decide, by decide, by decide⟩

/-- **C9** (corrected).  `Close` keeps no record of earlier calls and
forwards every call to the underlying closer when one exists: after
two `Close` calls the underlying `Close` has been invoked twice, and
on an initially open resource the first call returns no error while
the second returns the underlying already-closed error (the resource
is not released twice only because the underlying file close guards
itself).  Only for reader-backed iterators, which have no closer, is
`Close` a true idempotent no-op returning `nil`. -/
theorem c9_closeForwardsEveryCall (it : Iterator) :
    (it.closer = none → it.close = (it, none))
    ∧ (∀ c : CloserState, it.closer = some c →
        ((it.close).1.close).1.closer = some ⟨true, c.closeCount + 2⟩
        ∧ (c.closed = false →
            (it.close).2 = none
            ∧ ((it.close).1.close).2 = some .fileAlreadyClosed)) := by
  constructor
  · intro h
    rw [Iterator.close, h]
  · intro c hc
    obtain ⟨b, count⟩ := c
    cases b with
    | false =>
      refine ⟨?_, fun _ => ⟨?_, ?_⟩⟩ <;> simp [Iterator.close, hc, closerClose]
    | true =>
      refine ⟨?_, fun hfalse => absurd hfalse (by simp)⟩
      simp [Iterator.close, hc, closerClose]

/-- The file-backed iterator of the C9 witness (underlying close
already invoked five times by other holders of the resource). -/
def c9IterB : Iterator := ⟨⟨[], [], []⟩, [], [], some ⟨false, 5⟩⟩

/-- Witness for C9: the theorem applied to `c9IterB`, discharging its
hypotheses by evaluation. -/
theorem c9_closeForwardsEveryCall_witness :
    ((c9IterB.close).1.close).1.closer = some ⟨true, 7⟩
    ∧ (c9IterB.close).2 = none
    ∧ ((c9IterB.close).1.close).2 = some .fileAlreadyClosed := by
  have h := (c9_closeForwardsEveryCall c9IterB).2 ⟨false, 5⟩ rfl
  exact ⟨h.1, (h.2 rfl).1, (h.2 rfl).2⟩

/-! ### Header index with duplicate names (C10) -/

/-- Auxiliary: looking up an inserted key finds the inserted value;
other keys are unaffected. -/
theorem mapGet?_insert (k q : String) (v : Nat) :
    ∀ (m : List (String × Nat)),
      mapGet? (mapInsert m k v) q = if k = q then some v else mapGet? m q := by
  intro m
  induction m with
  | nil => simp only [mapInsert, mapGet?]
  | cons kv rest ih =>
    obtain ⟨k2, v2⟩ := kv
    by_cases hk : k2 = k
    · subst hk
      by_cases hq : k2 = q <;> simp [mapInsert, mapGet?, hq]
    · by_cases hq : k2 = q
      · have hkq : ¬(k = q) := fun e => hk (by rw [hq, e])
        have hqk : ¬(q = k) := fun e => hkq e.symm
        simp [mapInsert, mapGet?, hk, hq, hkq, hqk]
      · simp [mapInsert, mapGet?, hk, hq, ih]

/-- Auxiliary: headers none of which trims to `name` leave the lookup
of `name` unchanged. -/
theorem buildFieldMapLoop_noOccur :
    ∀ (hs : List String) (m : List (String × Nat)) (i : Nat) (name : String),
      (∀ k, k < hs.length → goTrimSpace (hs.getD k "") ≠ name) →
      mapGet? (buildFieldMapLoop m i hs) name = mapGet? m name := by
  intro hs
  induction hs with
  | nil => intro m i name _; rfl
  | cons h hs ih =>
    intro m i name hnone
    rw [buildFieldMapLoop]
    have htail : ∀ k, k < hs.length → goTrimSpace (hs.getD k "") ≠ name := by
      intro k hk
      have := hnone (k + 1) (by simpa using Nat.succ_lt_succ hk)
      rwa [List.getD_cons_succ] at this
    rw [ih (mapInsert m (goTrimSpace h) i) (i + 1) name htail]
    rw [mapGet?_insert]
    have hh : goTrimSpace h ≠ name := by
      have := hnone 0 (by simp)
      rwa [List.getD_cons_zero] at this
    rw [if_neg hh]

/-- Auxiliary: when position `j` holds the last header trimming to
`name`, the loop started at offset `i` maps `name` to `i + j`. -/
theorem buildFieldMapLoop_lastDup :
    ∀ (hs : List String) (m : List (String × Nat)) (i : Nat) (name : String) (j : Nat),
      j < hs.length → goTrimSpace (hs.getD j "") = name →
      (∀ k, k < hs.length → j < k → goTrimSpace (hs.getD k "") ≠ name) →
      mapGet? (buildFieldMapLoop m i hs) name = some (i + j) := by
  intro hs
  induction hs with
  | nil => intro m i name j hj _ _; simp at hj
  | cons h hs ih =>
    intro m i name j hj hname hlast
    cases j with
    | zero =>
      rw [List.getD_cons_zero] at hname
      rw [buildFieldMapLoop]
      have hnone : ∀ k, k < hs.length → goTrimSpace (hs.getD k "") ≠ name := by
        intro k hk
        have := hlast (k + 1) (by simpa using Nat.succ_lt_succ hk) (by omega)
        rwa [List.getD_cons_succ] at this
      rw [buildFieldMapLoop_noOccur hs (mapInsert m (goTrimSpace h) i) (i + 1) name hnone]
      rw [hname, mapGet?_insert, if_pos rfl, Nat.add_zero]
    | succ n =>
      rw [List.getD_cons_succ] at hname
      rw [buildFieldMapLoop]
      have htail : ∀ k, k < hs.length → n < k → goTrimSpace (hs.getD k "") ≠ name := by
        intro k hk hnk
        have := hlast (k + 1) (by simpa using Nat.succ_lt_succ hk) (by omega)
        rwa [List.getD_cons_succ] at this
      rw [ih (mapInsert m (goTrimSpace h) i) (i + 1) name n (by simpa using hj) hname htail]
      congr 1
      omega

/-- **C10** (confirmed).  When the header row contains duplicate
whitespace-trimmed names, the header index maps that name to the
zero-based position of the *last* such occurrence (later assignments
to the Go map overwrite earlier ones), so every plan entry annotated
with that name resolves — via the map indexing `Next` performs — to
the last duplicate column's cells on every row. -/
theorem c10_duplicateHeadersLastWins (headers : List String) (name : String) (i j : Nat)
    (_hij : i < j) (hj : j < headers.length)
    (_hiname : goTrimSpace (headers.getD i "") = name)
    (hjname : goTrimSpace (headers.getD j "") = name)
    (hlast : ∀ k, k < headers.length → j < k → goTrimSpace (headers.getD k "") ≠ name) :
    mapGet? (buildFieldMap headers) name = some j
    ∧ ∀ (f : FieldInfo), f.csvColumn = name → mapGetD (buildFieldMap headers) f.csvColumn = j := by
  have h1 : mapGet? (buildFieldMap headers) name = some (0 + j) :=
    buildFieldMapLoop_lastDup headers [] 0 name j hj hjname hlast
  rw [Nat.zero_add] at h1
  refine ⟨h1, ?_⟩
  intro f hcol
  rw [mapGetD, hcol, h1]
  rfl

/-- Witness for C10: the theorem applied to the header row
`["a", " a", "b"]`, whose first two names trim to `a`; the index maps
`a` to position 1, the last duplicate. -/
theorem c10_duplicateHeadersLastWins_witness :
    mapGet? (buildFieldMap ["a", " a", "b"]) "a" = some 1 :=
  (c10_duplicateHeadersLastWins ["a", " a", "b"] "a" 0 1 (by decide) (by decide)
      (by decide) (by decide) (by decide)).1

end SuperCSV
